import Mathlib

/-!
# Verification of GECCO's cluster refinement and CRF feature extraction

A shallow embedding of `gecco/refine.py` (`ClusterRefiner`) and `gecco/crf.py`
(`ClusterCRF`), with theorems settling the behavioural claims about segment
extraction, cluster refinement, and feature extraction.

Conventions of the embedding:
* pandas `DataFrame`s are lists of rows; a row of the domain-annotation table is a
  `Row` whose fields are the columns under the refiner's default column bindings
  (`sequence_id`, `protein_id`, `start`, `end`, `pfam`, `log_i_Evalue`, `p_pred`).
* floating-point probabilities and weights are modelled as `Rat`.
* fallible Python code (KeyError / ValueError / IndexError) is modelled with
  `Except String`.
* `pandas.DataFrame.groupby(col, sort=False)` is modelled by `groupByFS`: group keys
  in first-seen order, each group holding every row with that key, in table order.
-/

namespace Gecco

/-- Ordered association-list lookup (model of Python `dict.get` / `pandas` lookup). -/
def alookup {κ β : Type} [DecidableEq κ] : List (κ × β) → κ → Option β
  | [], _ => none
  | (k, v) :: rest, key => if k = key then some v else alookup rest key

/-- First-seen-order deduplication (model of `pandas.unique` and of the key order
produced by `groupby(..., sort=False)`). -/
def dedupFS {κ : Type} [DecidableEq κ] : List κ → List κ
  | [] => []
  | x :: xs => x :: (dedupFS xs).filter (fun y => decide (y ≠ x))

/-- Model of `pandas.DataFrame.groupby(key, sort=False)`: keys in first-seen order,
each paired with every element having that key, in original order. -/
def groupByFS {α κ : Type} [DecidableEq κ] (key : α → κ) (l : List α) : List (κ × List α) :=
  (dedupFS (l.map key)).map (fun k => (k, l.filter (fun x => decide (key x = k))))

/-- One row of the domain-annotation table handed to `ClusterRefiner`, with the
refiner's default column bindings.  `stop` models the `end` column. -/
structure Row where
  sequence_id : String
  protein_id : String
  start : Int
  stop : Int
  pfam : String
  log_i_Evalue : Rat
  p_pred : Rat
deriving DecidableEq, Repr

/-- A closed segment as built by `ClusterRefiner.extract_segments`: the rows of the
run, the `idx` column assigned at close time, and the `cluster_id` column. -/
structure Segment where
  rows : List Row
  idx : Nat
  cluster_id : String
deriving DecidableEq, Repr

/-- The state of a `ClusterRefiner` (`gecco/refine.py`, `__init__` plus the
`prefix` attribute set by `find_clusters`; `pfx` models `self.prefix`, whose
source name cannot be used here). -/
structure ClusterRefiner where
  thresh : Rat
  lower_thresh : Rat
  n_biopfams : Nat
  n_domains : Nat
  n_proteins : Nat
  join_width : Nat
  pfx : String
deriving DecidableEq, Repr

/-- The loop body of `ClusterRefiner.extract_segments` (refine.py lines 101-132):
a linear scan carrying the row index `n`, the ordinal `num` (`cluster_num`), the
in-segment flag `state` (`cluster_state`), the pending name (`cluster_name`), the
open segment's rows (`cluster_df`) and the closed segments (`cluster_list`).
`n == range(len(df))[-1]` is rendered as the remaining suffix being empty. -/
def extractLoop (lt : Rat) : List Row → Nat → Nat → Bool → String → List Row →
    List Segment → List Segment
  | [], _, _, _, _, _, out => out
  | row :: rest, n, num, state, name, cur, out =>
    if lt ≤ row.p_pred then
      if state = false then
        extractLoop lt rest (n + 1) num true
          (row.sequence_id ++ "_cluster_" ++ toString num) [row] out
      else
        let cur2 := cur ++ [row]
        if rest.isEmpty then
          extractLoop lt rest (n + 1) num state name cur2 (out ++ [⟨cur2, n, name⟩])
        else
          extractLoop lt rest (n + 1) num state name cur2 out
    else
      if state then
        extractLoop lt rest (n + 1) (num + 1) false name cur (out ++ [⟨cur, n, name⟩])
      else
        extractLoop lt rest (n + 1) num state name cur out

/-- `ClusterRefiner.extract_segments`: run the scan; return `none` (Python `None`)
when no segment was closed, otherwise the list of closed segments. -/
def ClusterRefiner.extract_segments (r : ClusterRefiner) (df : List Row) :
    Option (List Segment) :=
  let cl := extractLoop r.lower_thresh df 0 1 false "" [] []
  if cl.length > 0 then some cl else none

/-- Number of maximal contiguous runs of probabilities `≥ lt` in a stream. -/
def countRuns (lt : Rat) (ps : List Rat) : Nat :=
  (ps.foldl (fun st p => if lt ≤ p then (if st.2 then st else (st.1 + 1, true))
    else (st.1, false)) ((0 : Nat), false)).1

/-- A protein as assembled by `ClusterRefiner._extract_cluster`. -/
structure Protein where
  seq_id : String
  start : Int
  stop : Int
  name : String
  domains : List String
  weights : List Rat
  p : List Rat
deriving DecidableEq, Repr

/-- A candidate cluster (`gecco.bgc.BGC`): its proteins and its name. -/
structure BGC where
  prots : List Protein
  name : String
deriving DecidableEq, Repr

/-- Smallest `start` among a group's rows (`subdf["start"].min()`). -/
def minStart : List Row → Int
  | [] => 0
  | r :: rs => rs.foldl (fun a x => min a x.start) r.start

/-- Largest `end` among a group's rows (`subdf["end"].max()`). -/
def maxStop : List Row → Int
  | [] => 0
  | r :: rs => rs.foldl (fun a x => max a x.stop) r.stop

/-- `ClusterRefiner._extract_cluster`: group the segment's rows by protein id in
first-seen order and build one `Protein` per group; the surrounding dataframe is
consulted only to build `cluster_df`, which the source never uses afterwards, so
it does not appear here. -/
def extractCluster (seg : Segment) : BGC :=
  { prots := (groupByFS Row.protein_id seg.rows).map (fun g =>
      { seq_id := ((g.2.head?).map Row.sequence_id).getD ""
        start := minStart g.2
        stop := maxStop g.2
        name := g.1
        domains := g.2.map Row.pfam
        weights := g.2.map Row.log_i_Evalue
        p := g.2.map Row.p_pred })
    name := seg.cluster_id }

/-- Modelled from the spec: `BGC.is_valid(criterion="antismash")` lives in
`gecco/bgc.py`, which is not among the sources.  Spec §4.3 describes the antismash
post-hoc validity check as "minimum number of biosynthetic-signal domains present,
minimum protein count"; the set of biosynthetic-signal domains is abstracted as
the predicate `isBio`. -/
def BGC.is_valid (isBio : String → Bool) (nBio nProt : Nat) (b : BGC) : Bool :=
  decide (nBio ≤ (b.prots.map (fun p => (p.domains.filter isBio).length)).sum) &&
    decide (nProt ≤ b.prots.length)

/-- `ClusterRefiner._gecco_refine`: every extracted segment becomes a cluster. -/
def geccoRefine (r : ClusterRefiner) (df : List Row) : Option (List BGC) :=
  match r.extract_segments df with
  | none => none
  | some segs => some (segs.foldl (fun acc seg => acc ++ [extractCluster seg]) [])

/-- `ClusterRefiner._antismash_refine`: extracted segments become clusters only if
they pass `BGC.is_valid` under the antismash criterion. -/
def antismashRefine (isBio : String → Bool) (r : ClusterRefiner) (df : List Row) :
    Option (List BGC) :=
  match r.extract_segments df with
  | none => none
  | some segs => some (segs.foldl (fun acc seg =>
      let bgc := extractCluster seg
      if BGC.is_valid isBio r.n_biopfams r.n_proteins bgc then acc ++ [bgc]
      else acc) [])

/-- `ClusterRefiner.find_clusters`: records the prefix, overwrites `lower_thresh`
according to the method, and dispatches; an unknown method falls through and
returns `None`.  The pair returned is (mutated refiner, result). -/
def ClusterRefiner.find_clusters (r : ClusterRefiner) (isBio : String → Bool)
    (df : List Row) (method : String) (pfx : String) :
    ClusterRefiner × Option (List BGC) :=
  let r1 := { r with pfx := pfx }
  if method = "antismash" then
    let r2 := { r1 with lower_thresh := mkRat 3 10 }
    (r2, antismashRefine isBio r2 df)
  else if method = "gecco" then
    let r2 := { r1 with lower_thresh := r1.thresh }
    (r2, geccoRefine r2 df)
  else (r1, none)

/-- A refiner configured as the claims describe the gecco criterion: configured
threshold 0.4, so `find_clusters` will set `lower_thresh` to 0.4 as well. -/
def rC1 : ClusterRefiner :=
  { thresh := mkRat 2 5, lower_thresh := mkRat 3 10, n_biopfams := 5,
    n_domains := 1, n_proteins := 5, join_width := 1, pfx := "cluster" }

/-- A two-row stream whose only above-threshold run is the final row. -/
def dfC1 : List Row :=
  [ { sequence_id := "seq1", protein_id := "p1", start := 0, stop := 100,
      pfam := "PF00001", log_i_Evalue := 1, p_pred := mkRat 1 10 },
    { sequence_id := "seq1", protein_id := "p2", start := 100, stop := 200,
      pfam := "PF00002", log_i_Evalue := 1, p_pred := mkRat 1 2 } ]

/-- A cell of the CRF feature table: feature/grouping/label columns hold strings,
weight columns hold numbers. -/
inductive Val where
  | s (v : String)
  | n (q : Rat)
deriving DecidableEq, Repr

/-- Python `str()` of a cell value, as used for class labels. -/
def Val.pyStr : Val → String
  | .s v => v
  | .n q => toString q

/-- Numeric view of a cell; weight columns are numeric, so a string weight is the
error case (Python would raise at the `max` comparison). -/
def Val.asNum : Val → Except String Rat
  | .n q => .ok q
  | .s v => .error ("TypeError: " ++ v)

/-- One row of the CRF feature table: an ordered mapping column-name to cell. -/
structure CrfRow where
  cols : List (String × Val)
deriving DecidableEq, Repr

/-- Python `row.get(c)`. -/
def CrfRow.get? (r : CrfRow) (c : String) : Option Val :=
  alookup r.cols c

/-- Python `row[c]` (KeyError when the column is absent). -/
def CrfRow.item (r : CrfRow) (c : String) : Except String Val :=
  match r.get? c with
  | some v => .ok v
  | none => .error ("KeyError: " ++ c)

/-- An entry of `ClusterCRF.weights`: either a literal numeric weight or the name
of a weight column (`isinstance(w, numbers.Number)` dispatch). -/
inductive WSpec where
  | lit (w : Rat)
  | col (c : String)
deriving DecidableEq, Repr

/-- A feature dict in CRFSuite format: insertion-ordered `{key: weight}`. -/
abbrev FeatDict := List (Val × Rat)

/-- `feat_dict[key] = max(val, feat_dict.get(key, val))`: on a fresh key the entry
is appended (Python dict insertion order); on an existing key the stored weight
becomes the maximum of the old and new weights. -/
def insertMax (k : Val) (v : Rat) : FeatDict → FeatDict
  | [] => [(k, v)]
  | (k2, v2) :: rest =>
    if k2 = k then (k2, max v v2) :: rest else (k2, v2) :: insertMax k v rest

/-- One `(f, w)` step of `ClusterCRF._make_feature_dict`: resolve the key and the
weight from the row (`key, val = row[f], w` for a literal weight, `key, val =
row.get(f, f), row[w]` for a column weight). -/
def keyval (row : CrfRow) (f : String) (w : WSpec) : Except String (Val × Rat) :=
  match w with
  | .lit q =>
    match row.item f with
    | .ok k => .ok (k, q)
    | .error e => .error e
  | .col c =>
    match row.item c with
    | .ok v =>
      match v.asNum with
      | .ok q => .ok ((row.get? f).getD (.s f), q)
      | .error e => .error e
    | .error e => .error e

/-- Error-propagating map, the shape of the Python `for`-append loops. -/
def mapE {α β : Type} (f : α → Except String β) : List α → Except String (List β)
  | [] => .ok []
  | x :: xs =>
    match f x with
    | .ok y =>
      match mapE f xs with
      | .ok ys => .ok (y :: ys)
      | .error e => .error e
    | .error e => .error e

/-- Error-propagating fold, the shape of the Python dict-accumulation loops. -/
def foldE {σ α : Type} (f : σ → α → Except String σ) : σ → List α → Except String σ
  | init, [] => .ok init
  | init, x :: xs =>
    match f init x with
    | .ok s => foldE f s xs
    | .error e => .error e

/-- `ClusterCRF._make_feature_dict`: fold `zip(self.features, self.weights)` into
the accumulating dict with the max-on-collision rule. -/
def makeFeatureDict (features : List String) (weights : List WSpec) (row : CrfRow)
    (d : FeatDict) : Except String FeatDict :=
  foldE (fun acc fw =>
    match keyval row fw.1 fw.2 with
    | .ok kv => .ok (insertMax kv.1 kv.2 acc)
    | .error e => .error e) d (features.zip weights)

/-- The configuration of a `ClusterCRF` (`gecco/crf.py`, `__init__`); the wrapped
`sklearn_crfsuite.CRF` model is external and carries no extraction semantics. -/
structure ClusterCRF where
  Y_col : Option String
  features : List String
  weights : List WSpec
  groups : String
  feature_type : String
  overlap : Nat
deriving DecidableEq, Repr

/-- `ClusterCRF.__init__`: stores the configuration; no argument is validated, so
construction never fails (the `Except` is the honest type of a Python
constructor, and this one always returns `ok`). -/
def ClusterCRF.init (Y_col : Option String) (feature_cols : Option (List String))
    (weight_cols : Option (List WSpec)) (group_col : String) (feature_type : String)
    (overlap : Nat) : Except String ClusterCRF :=
  .ok { Y_col := Y_col, features := feature_cols.getD [], weights := weight_cols.getD [],
        groups := group_col, feature_type := feature_type, overlap := overlap }

/-- The grouping key of a row under `c.groups` (used once the presence of the
grouping column in every row has been checked). -/
def keyf (c : ClusterCRF) (r : CrfRow) : Val :=
  (r.get? c.groups).getD (.s "")

/-- `ClusterCRF._extract_single_features`: one feature dict per row, then labels
from the `Y` column as strings (prediction mode when `yCol = none`). -/
def extractSingleFeatures (c : ClusterCRF) (table : List CrfRow)
    (yCol : Option String) : Except String (List FeatDict × Option (List String)) :=
  match mapE (fun row => makeFeatureDict c.features c.weights row []) table with
  | .error e => .error e
  | .ok X =>
    match yCol with
    | some yc =>
      match mapE (fun row => (row.item yc).map Val.pyStr) table with
      | .ok Y => .ok (X, some Y)
      | .error e => .error e
    | none => .ok (X, none)

/-- The per-group body of `ClusterCRF._extract_protein_features`: fold every row
of the group into one feature dict, then (in labelled mode) read the label from
the group's first row (`tbl[Y_col].values[0]`). -/
def protGroupStep (c : ClusterCRF) (yCol : Option String) (g : Val × List CrfRow) :
    Except String (FeatDict × Option String) :=
  match foldE (fun d row => makeFeatureDict c.features c.weights row d) [] g.2 with
  | .error e => .error e
  | .ok d =>
    match yCol with
    | some yc =>
      match g.2.head? with
      | some r0 =>
        match r0.item yc with
        | .ok v => .ok (d, some v.pyStr)
        | .error e => .error e
      | none => .error "IndexError: index 0 is out of bounds"
    | none => .ok (d, none)

/-- `ClusterCRF._extract_protein_features`: group rows by the grouping column in
first-seen order (`groupby(self.groups, sort=False)`), one feature dict and (in
labelled mode) one first-row label per group. -/
def extractProteinFeatures (c : ClusterCRF) (table : List CrfRow)
    (yCol : Option String) : Except String (List FeatDict × Option (List String)) :=
  if table.all (fun r => (r.get? c.groups).isSome) then
    match mapE (protGroupStep c yCol) (groupByFS (keyf c) table) with
    | .error e => .error e
    | .ok XY =>
      match yCol with
      | some _ => .ok (XY.map Prod.fst, some (XY.map (fun q => q.2.getD "")))
      | none => .ok (XY.map Prod.fst, none)
  else .error ("KeyError: " ++ c.groups)

/-- Normalisation of one bound of a Python slice `l[a:b]`: negative indices count
from the end (clamped at 0), positive ones are clamped at the length. -/
def pyIdx (len : Nat) (i : Int) : Nat :=
  if i < 0 then ((len : Int) + i).toNat else min i.toNat len

/-- Python/pandas positional slice `l[a:b]` (`.iloc[a:b]` on a default
range-indexed frame), including the negative-index wrap-around semantics. -/
def pySlice {α : Type} (l : List α) (a b : Int) : List α :=
  (l.drop (pyIdx l.length a)).take (pyIdx l.length b - pyIdx l.length a)

/-- `ClusterCRF._extract_overlapping_features`: for each row index `idx` the
feature dict aggregates the rows of `table.iloc[idx - overlap : idx + overlap + 1]`;
labels as in single mode. -/
def extractOverlappingFeatures (c : ClusterCRF) (table : List CrfRow)
    (yCol : Option String) : Except String (List FeatDict × Option (List String)) :=
  match mapE (fun idx =>
      foldE (fun d row => makeFeatureDict c.features c.weights row d) []
        (pySlice table ((idx : Int) - (c.overlap : Int))
          ((idx : Int) + (c.overlap : Int) + 1)))
    (List.range table.length) with
  | .error e => .error e
  | .ok X =>
    match yCol with
    | some yc =>
      match mapE (fun row => (row.item yc).map Val.pyStr) table with
      | .ok Y => .ok (X, some Y)
      | .error e => .error e
    | none => .ok (X, none)

/-- `ClusterCRF._extract_features`: dispatch on `feature_type`; `X_only` drops the
label column (prediction mode); an unknown type raises `ValueError` here, not at
construction. -/
def extractFeatures (c : ClusterCRF) (sample : List CrfRow) (xOnly : Bool) :
    Except String (List FeatDict × Option (List String)) :=
  let yCol := if xOnly then none else c.Y_col
  if c.feature_type = "single" then extractSingleFeatures c sample yCol
  else if c.feature_type = "overlap" then extractOverlappingFeatures c sample yCol
  else if c.feature_type = "group" then extractProteinFeatures c sample yCol
  else .error ("unexpected feature type: '" ++ c.feature_type ++ "'")

/-- The `try: [d["1"] for d in sample] except KeyError` comprehension of
`ClusterCRF.predict_marginals`. -/
def tryOnes (sample : List (List (String × Rat))) : Except String (List Rat) :=
  mapE (fun d =>
    match alookup d "1" with
    | some q => .ok q
    | none => .error "KeyError: 1") sample

/-- Per-sample cluster-probability extraction of `ClusterCRF.predict_marginals`:
on a KeyError the whole sample is replaced by zeros and a warning is emitted
(the Bool records whether `warnings.warn` fired). -/
def sampleClusterProbs (sample : List (List (String × Rat))) : List Rat × Bool :=
  match tryOnes sample with
  | .ok ps => (ps, false)
  | .error _ => (sample.map (fun _ => (0 : Rat)), true)

/-- The whole-batch loop over marginal outputs in `predict_marginals`. -/
def clusterProbs (marginals : List (List (List (String × Rat)))) :
    List (List Rat × Bool) :=
  marginals.map sampleClusterProbs

/-- `ClusterCRF._merge`: build `unidf` from the probability vector and
`df[self.groups].unique()` (a ValueError if the lengths differ, a KeyError if the
grouping column is missing), then inner-join `df` with it on the grouping column;
as the unique keys cover every row, each row is paired with its group's
probability, in row order. -/
def merge (c : ClusterCRF) (df : List CrfRow) (p : List Rat) :
    Except String (List (CrfRow × Rat)) :=
  if df.all (fun r => (r.get? c.groups).isSome) then
    let pids := dedupFS (df.map (keyf c))
    if pids.length = p.length then
      .ok (df.filterMap (fun r => (alookup (pids.zip p) (keyf c r)).map (fun q => (r, q))))
    else .error "ValueError: Length of values does not match length of index"
  else .error ("KeyError: " ++ c.groups)

/-- The naming discipline of `extract_segments`: a closed segment's `cluster_id`
is built from its first row's sequence id and the ordinal `n`. -/
def segNamed (seg : Segment) (n : Nat) : Prop :=
  ∃ r0 rest0, seg.rows = r0 :: rest0 ∧
    seg.cluster_id = r0.sequence_id ++ "_cluster_" ++ toString n

/-- A refiner whose configured threshold and lower threshold both equal 0.4. -/
def rW : ClusterRefiner :=
  { thresh := mkRat 2 5, lower_thresh := mkRat 2 5, n_biopfams := 5,
    n_domains := 1, n_proteins := 5, join_width := 1, pfx := "cluster" }

/-- Rows of a stream with two maximal above-threshold runs (rows 0 and 2). -/
def rowW (pid : String) (a b : Int) (p : Rat) : Row :=
  { sequence_id := "s", protein_id := pid, start := a, stop := b,
    pfam := "PF00010", log_i_Evalue := 1, p_pred := p }

/-- A four-row stream: probabilities 1/2, 1/10, 1/2, 1/10 against threshold 2/5. -/
def dfW : List Row :=
  [rowW "p1" 0 10 (mkRat 1 2), rowW "p2" 10 20 (mkRat 1 10),
   rowW "p3" 20 30 (mkRat 1 2), rowW "p4" 30 40 (mkRat 1 10)]

/-- First segment `extract_segments` closes on `dfW`. -/
def segW1 : Segment := ⟨[rowW "p1" 0 10 (mkRat 1 2)], 1, "s_cluster_1"⟩

/-- Second segment `extract_segments` closes on `dfW`. -/
def segW2 : Segment := ⟨[rowW "p3" 20 30 (mkRat 1 2)], 3, "s_cluster_2"⟩

/-- A CRF feature-table row with the default column layout. -/
def mkCrfRow (pid dom : String) (w : Rat) : CrfRow :=
  ⟨[("protein_id", .s pid), ("pfam", .s dom), ("log_i_Evalue", .n w)]⟩

/-- A CRF feature-table row that also carries a `BGC` class label. -/
def mkCrfRowY (pid dom : String) (w : Rat) (lab : String) : CrfRow :=
  ⟨[("protein_id", .s pid), ("pfam", .s dom), ("log_i_Evalue", .n w),
    ("BGC", .s lab)]⟩

/-- An overlap-mode configuration with window radius 2. -/
def cC4 : ClusterCRF :=
  { Y_col := none, features := ["pfam"], weights := [.col "log_i_Evalue"],
    groups := "protein_id", feature_type := "overlap", overlap := 2 }

/-- A six-row sample with pairwise distinct domains. -/
def tableC4 : List CrfRow :=
  [mkCrfRow "p0" "P0" 1, mkCrfRow "p1" "P1" 2, mkCrfRow "p2" "P2" 3,
   mkCrfRow "p3" "P3" 4, mkCrfRow "p4" "P4" 5, mkCrfRow "p5" "P5" 6]

/-- A row on which the columns `pfam` and `pfam2` both hold the key `A`. -/
def rowC5 : CrfRow := ⟨[("pfam", .s "A"), ("pfam2", .s "A")]⟩

/-- A configuration whose `feature_type` is not one of the supported modes. -/
def cBogus : ClusterCRF :=
  { Y_col := none, features := [], weights := [], groups := "protein_id",
    feature_type := "bogus", overlap := 2 }

/-- A group-mode configuration. -/
def cGrp : ClusterCRF :=
  { Y_col := some "BGC", features := ["pfam"], weights := [.col "log_i_Evalue"],
    groups := "protein_id", feature_type := "group", overlap := 2 }

/-- A sample whose protein id `A` recurs in a non-adjacent row. -/
def dfDup : List CrfRow :=
  [mkCrfRow "A" "d1" 2, mkCrfRow "B" "d2" 3, mkCrfRow "A" "d3" 4]

/-- A labelled sample in which protein `A`'s two rows carry different labels. -/
def tableW9 : List CrfRow :=
  [mkCrfRowY "A" "d1" 2 "1", mkCrfRowY "B" "d2" 3 "0", mkCrfRowY "A" "d3" 4 "0"]

/-- C1: on a stream whose single maximal run of `p_pred ≥ threshold` consists of
the last row alone, `find_clusters` under the gecco criterion returns no segment
at all: the end-of-stream force-close lives only in the segment-extension branch
of `extract_segments`, so a run opened at the last row is lost, contradicting
"the number of segments equals the number of maximal runs" and "end-of-stream
force-closes the final open segment". -/
theorem claim_C1 :
    (rC1.find_clusters (fun _ => false) dfC1 "gecco" "cluster").2 = none ∧
    countRuns rC1.thresh (dfC1.map Row.p_pred) = 1 := by
  constructor
  · decide
  · decide

theorem namedOk_append {out : List Segment} {s : Segment} {m : Nat}
    (h1 : ∀ i seg, out[i]? = some seg → segNamed seg (i + 1))
    (hm : m = out.length + 1) (h2 : segNamed s m) :
    ∀ i seg, (out ++ [s])[i]? = some seg → segNamed seg (i + 1) := by
  intro i seg hget
  by_cases hi : i < out.length
  · rw [List.getElem?_append_left hi] at hget
    exact h1 i seg hget
  · have hlen : i < out.length + 1 := by
      by_contra hcon
      rw [List.getElem?_eq_none (by simpa using Nat.le_of_not_lt hcon)] at hget
      exact Option.noConfusion hget
    have hieq : i = out.length := Nat.le_antisymm (Nat.lt_succ_iff.mp hlen) (Nat.le_of_not_lt hi)
    subst hieq
    rw [List.getElem?_append_right (Nat.le_refl _)] at hget
    simp only [Nat.sub_self, List.getElem?_cons_zero, Option.some.injEq] at hget
    subst hget
    rw [← hm]
    exact h2

theorem extractLoop_named (lt : Rat) (df : List Row) : ∀ (n num : Nat) (state : Bool)
    (name : String) (cur : List Row) (out : List Segment),
    (∀ i seg, out[i]? = some seg → segNamed seg (i + 1)) →
    (state = true → num = out.length + 1 ∧
      ∃ r0 rest0, cur = r0 :: rest0 ∧
        name = r0.sequence_id ++ "_cluster_" ++ toString num) →
    (state = false → num = out.length + 1) →
    ∀ i seg, (extractLoop lt df n num state name cur out)[i]? = some seg →
      segNamed seg (i + 1) := by
  induction df with
  | nil =>
    intro n num state name cur out h1 _ _ i seg hget
    rw [extractLoop] at hget
    exact h1 i seg hget
  | cons row rest ih =>
    intro n num state name cur out h1 h2 h3
    rw [extractLoop]
    by_cases hp : lt ≤ row.p_pred
    · cases state with
      | false =>
        simp only [hp, if_true, if_pos rfl]
        exact ih (n + 1) num true _ [row] out h1
          (fun _ => ⟨h3 rfl, row, [], rfl, rfl⟩) (fun hc => Bool.noConfusion hc)
      | true =>
        obtain ⟨hnum, r0, rest0, hcur, hname⟩ := h2 rfl
        simp only [hp, if_true, if_neg (by simp : ¬(true = false))]
        cases rest with
        | nil =>
          simp only [List.isEmpty_nil, if_true]
          intro i seg hget
          rw [extractLoop] at hget
          refine namedOk_append h1 hnum ⟨r0, rest0 ++ [row], by rw [hcur]; rfl, ?_⟩
            i seg hget
          exact hname
        | cons row2 rest2 =>
          simp only [List.isEmpty_cons, if_false, Bool.false_eq_true]
          exact ih (n + 1) num true name (cur ++ [row]) out h1
            (fun _ => ⟨hnum, r0, rest0 ++ [row], by rw [hcur]; rfl, hname⟩)
            (fun hc => Bool.noConfusion hc)
    · cases state with
      | true =>
        obtain ⟨hnum, r0, rest0, hcur, hname⟩ := h2 rfl
        simp only [hp, if_false, if_pos rfl]
        refine ih (n + 1) (num + 1) false name cur (out ++ [⟨cur, n, name⟩])
          (namedOk_append h1 hnum ⟨r0, rest0, hcur, hname⟩)
          (fun hc => Bool.noConfusion hc) (fun _ => by simp [hnum])
      | false =>
        simp only [hp, if_false, if_neg (by simp : ¬(false = true))]
        exact ih (n + 1) num false name cur out h1 (fun hc => Bool.noConfusion hc) h3

theorem foldl_append_eq_map (f : Segment → BGC) :
    ∀ (l : List Segment) (acc : List BGC),
    l.foldl (fun acc seg => acc ++ [f seg]) acc = acc ++ l.map f := by
  intro l
  induction l with
  | nil => intro acc; simp
  | cons s rest ih => intro acc; simp [ih]

theorem foldl_append_eq_filter_map (f : Segment → BGC) (v : BGC → Bool) :
    ∀ (l : List Segment) (acc : List BGC),
    l.foldl (fun acc seg => let bgc := f seg; if v bgc then acc ++ [bgc] else acc) acc
      = acc ++ (l.map f).filter v := by
  intro l
  induction l with
  | nil => intro acc; simp
  | cons s rest ih =>
    intro acc
    simp only [List.foldl_cons, List.map_cons, List.filter_cons]
    by_cases hv : v (f s)
    · simp [hv, ih]
    · simp [hv, ih]

theorem antismashRefine_eq (isBio : String → Bool) (r : ClusterRefiner)
    (df : List Row) :
    antismashRefine isBio r df = (r.extract_segments df).map (fun segs =>
      (segs.map extractCluster).filter (BGC.is_valid isBio r.n_biopfams r.n_proteins)) := by
  rw [antismashRefine]
  cases r.extract_segments df with
  | none => rfl
  | some segs => simp [foldl_append_eq_filter_map]

theorem geccoRefine_eq (r : ClusterRefiner) (df : List Row) :
    geccoRefine r df = (r.extract_segments df).map (fun segs => segs.map extractCluster) := by
  rw [geccoRefine]
  cases r.extract_segments df with
  | none => rfl
  | some segs => simp [foldl_append_eq_map]

/-- C3: (a) in the output of `extract_segments`, the `i`-th (0-based) closed
segment is nonempty and named `{sequence_id}_cluster_{i+1}` from its first row's
sequence id: ordinals start at 1 and increment by exactly one per close; (b) every
cluster emitted by the antismash refiner carries the `cluster_id` of one of those
segments unchanged, and validation happens only after naming, so a dropped segment
still consumes its ordinal and emitted ids may have gaps. -/
theorem claim_C3 (r : ClusterRefiner) (df : List Row) (segs : List Segment)
    (hx : r.extract_segments df = some segs) :
    (∀ i seg, segs[i]? = some seg → segNamed seg (i + 1)) ∧
    (∀ (isBio : String → Bool) (bgcs : List BGC) (b : BGC),
      antismashRefine isBio r df = some bgcs → b ∈ bgcs →
      ∃ (i : Nat) (seg : Segment), segs[i]? = some seg ∧ b.name = seg.cluster_id) := by
  constructor
  · rw [ClusterRefiner.extract_segments] at hx
    by_cases hlen : (extractLoop r.lower_thresh df 0 1 false "" [] []).length > 0
    · rw [if_pos hlen] at hx
      have hsegs : segs = extractLoop r.lower_thresh df 0 1 false "" [] [] :=
        (Option.some.injEq _ _ ▸ hx).symm
      rw [hsegs]
      exact extractLoop_named r.lower_thresh df 0 1 false "" [] []
        (fun i seg h => by simp at h) (fun hc => Bool.noConfusion hc) (fun _ => rfl)
    · rw [if_neg hlen] at hx
      exact Option.noConfusion hx
  · intro isBio bgcs b hb hmem
    rw [antismashRefine_eq, hx] at hb
    simp only [Option.map_some', Option.some.injEq] at hb
    rw [← hb] at hmem
    have hmem2 := (List.mem_filter.mp hmem).1
    obtain ⟨seg, hseg, hfb⟩ := List.mem_map.mp hmem2
    obtain ⟨i, hi⟩ := List.getElem?_of_mem hseg
    refine ⟨i, seg, hi, ?_⟩
    rw [← hfb]
    rfl

/-- Witness for C3 on the concrete stream `dfW`: both closed segments are named
with consecutive ordinals from their first row's sequence id. -/
theorem claim_C3_witness : segNamed segW1 1 ∧ segNamed segW2 2 :=
  ⟨(claim_C3 rW dfW [segW1, segW2] (by decide)).1 0 segW1 (by decide),
   (claim_C3 rW dfW [segW1, segW2] (by decide)).1 1 segW2 (by decide)⟩

/-- C2: (a) under the antismash method the configured `threshold` is irrelevant
(the segment-opening lower threshold is the fixed 0.3); (b) the antismash result
is exactly the extraction at `lower_thresh = 0.3` with every materialized cluster
kept iff it passes the post-hoc `BGC.is_valid` check (failing segments silently
dropped); (c) under the gecco method the extraction runs at `lower_thresh =
threshold` and every extracted segment is emitted as a cluster, unfiltered. -/
theorem claim_C2 (r : ClusterRefiner) (isBio : String → Bool) (df : List Row)
    (pfx : String) (t2 : Rat) :
    (({ r with thresh := t2 } : ClusterRefiner).find_clusters isBio df "antismash" pfx).2
        = (r.find_clusters isBio df "antismash" pfx).2 ∧
    (r.find_clusters isBio df "antismash" pfx).2
        = (ClusterRefiner.extract_segments
            { r with pfx := pfx, lower_thresh := mkRat 3 10 } df).map (fun segs =>
          (segs.map extractCluster).filter
            (BGC.is_valid isBio r.n_biopfams r.n_proteins)) ∧
    (r.find_clusters isBio df "gecco" pfx).2
        = (ClusterRefiner.extract_segments
            { r with pfx := pfx, lower_thresh := r.thresh } df).map (fun segs =>
          segs.map extractCluster) := by
  refine ⟨?_, ?_, ?_⟩
  · simp [ClusterRefiner.find_clusters, antismashRefine_eq,
      ClusterRefiner.extract_segments]
  · simp [ClusterRefiner.find_clusters, antismashRefine_eq]
  · simp [ClusterRefiner.find_clusters, geccoRefine_eq]

/-- C10: `find_clusters` overwrites `lower_thresh` before extracting (to the
configured `threshold` for the gecco method, to 0.3 for the antismash method),
so the `lower_thresh` the refiner was constructed with never influences the
clusters returned through `find_clusters`, whatever the method string. -/
theorem claim_C10 (r : ClusterRefiner) (isBio : String → Bool) (df : List Row)
    (pfx : String) :
    ((r.find_clusters isBio df "gecco" pfx).1.lower_thresh = r.thresh) ∧
    ((r.find_clusters isBio df "antismash" pfx).1.lower_thresh = mkRat 3 10) ∧
    (∀ (method : String) (lt2 : Rat),
      (({ r with lower_thresh := lt2 } : ClusterRefiner).find_clusters
          isBio df method pfx).2
        = (r.find_clusters isBio df method pfx).2) := by
  refine ⟨?_, ?_, ?_⟩
  · simp [ClusterRefiner.find_clusters]
  · simp [ClusterRefiner.find_clusters]
  · intro method lt2
    by_cases ha : method = "antismash"
    · simp [ClusterRefiner.find_clusters, ha]
    · by_cases hg : method = "gecco"
      · simp [ClusterRefiner.find_clusters, ha, hg, geccoRefine_eq,
          ClusterRefiner.extract_segments]
      · simp [ClusterRefiner.find_clusters, ha, hg]

/-- C4: with `overlap = 2` on a six-row sample, the feature dict of row 0 is
empty: `table.iloc[0 - 2 : 3]` has a negative start, which Python wraps to
`len - 2 = 4 > 3`, yielding an empty window instead of the claimed clipped window
of rows 0..2 (whose aggregation, shown in the second conjunct, is non-empty). -/
theorem claim_C4 :
    (extractOverlappingFeatures cC4 tableC4 none).map (fun pr => pr.1.head?)
        = .ok (some ([] : FeatDict)) ∧
    foldE (fun d row => makeFeatureDict cC4.features cC4.weights row d) []
        (tableC4.take 3)
      = .ok [(Val.s "P0", 1), (Val.s "P1", 2), (Val.s "P2", 3)] := by
  constructor
  · rfl
  · rfl

theorem foldE_append {σ α : Type} (f : σ → α → Except String σ) (init : σ)
    (l1 l2 : List α) :
    foldE f init (l1 ++ l2) =
      match foldE f init l1 with
      | .ok s => foldE f s l2
      | .error e => .error e := by
  induction l1 generalizing init with
  | nil => rfl
  | cons x xs ih =>
    rw [List.cons_append, foldE, foldE]
    cases f init x with
    | ok s => exact ih s
    | error e => rfl

theorem alookup_insertMax (d : FeatDict) (k : Val) (v old : Rat)
    (h : alookup d k = some old) :
    alookup (insertMax k v d) k = some (max v old) := by
  induction d with
  | nil => rw [alookup] at h; exact Option.noConfusion h
  | cons kv rest ih =>
    obtain ⟨k2, v2⟩ := kv
    rw [alookup] at h
    by_cases hk : k2 = k
    · rw [if_pos hk] at h
      rw [insertMax, if_pos hk, alookup, if_pos hk]
      rw [Option.some.injEq] at h
      rw [h]
    · rw [if_neg hk] at h
      rw [insertMax, if_neg hk, alookup, if_neg hk]
      exact ih h

/-- C5: whenever a configured feature/weight pair resolves (after any earlier
pairs of the same row) to a key `k` already stored with weight `old` and a new
weight `v`, the dict update is exactly `insertMax`, and the weight stored at `k`
becomes `max v old` — not the sum, not the incoming value. -/
theorem claim_C5 (fs : List String) (ws : List WSpec) (f : String) (w : WSpec)
    (row : CrfRow) (d0 d1 : FeatDict) (k : Val) (v old : Rat)
    (hlen : fs.length = ws.length)
    (hfold : makeFeatureDict fs ws row d0 = .ok d1)
    (hkv : keyval row f w = .ok (k, v))
    (hold : alookup d1 k = some old) :
    makeFeatureDict (fs ++ [f]) (ws ++ [w]) row d0 = .ok (insertMax k v d1) ∧
    alookup (insertMax k v d1) k = some (max v old) := by
  constructor
  · rw [makeFeatureDict, List.zip_append hlen, foldE_append]
    rw [makeFeatureDict] at hfold
    rw [hfold]
    simp only [List.zip_cons_cons, List.zip_nil_left, foldE, hkv]
  · exact alookup_insertMax d1 k v old hold

/-- Witness for C5: on `rowC5` the pairs `("pfam", 2)` then `("pfam2", 5)` both
resolve to key `A`; the second pair stores `max 5 2`. -/
theorem claim_C5_witness :
    makeFeatureDict (["pfam"] ++ ["pfam2"]) ([WSpec.lit 2] ++ [WSpec.lit 5]) rowC5 []
        = .ok (insertMax (Val.s "A") 5 [(Val.s "A", 2)]) ∧
    alookup (insertMax (Val.s "A") 5 [(Val.s "A", 2)]) (Val.s "A")
        = some (max 5 2) :=
  claim_C5 ["pfam"] [WSpec.lit 2] "pfam2" (WSpec.lit 5) rowC5 [] [(Val.s "A", 2)]
    (Val.s "A") 5 2 rfl rfl rfl rfl

/-- Counterexample to C6: constructing a `ClusterCRF` with the unknown mode name
`bogus` succeeds — `__init__` validates nothing, so nothing fails at
construction time. -/
theorem claim_C6_counterexample :
    ClusterCRF.init (some "BGC") (some ["pfam"]) (some [WSpec.col "log_i_Evalue"])
        "protein_id" "bogus" 2
      = .ok { Y_col := some "BGC", features := ["pfam"],
              weights := [WSpec.col "log_i_Evalue"], groups := "protein_id",
              feature_type := "bogus", overlap := 2 } := rfl

/-- C6 (amended): an unknown `feature_type` is rejected not at construction but
at feature-extraction time: `_extract_features` raises the unknown-mode
`ValueError` before touching any row of the sample. -/
theorem claim_C6 (c : ClusterCRF) (sample : List CrfRow) (xOnly : Bool)
    (h1 : c.feature_type ≠ "single") (h2 : c.feature_type ≠ "overlap")
    (h3 : c.feature_type ≠ "group") :
    extractFeatures c sample xOnly
      = .error ("unexpected feature type: '" ++ c.feature_type ++ "'") := by
  simp [extractFeatures, h1, h2, h3]

/-- Witness for C6: the `bogus`-mode configuration fails at extraction with the
unknown-mode error. -/
theorem claim_C6_witness :
    extractFeatures cBogus [] true = .error "unexpected feature type: 'bogus'" :=
  claim_C6 cBogus [] true (by decide) (by decide) (by decide)

/-- C7: a sample none of whose positions assigns mass to label "1" is replaced by
an all-zero probability vector with the warning flag set (not an exception), and
the rest of the batch is processed unchanged around it. -/
theorem claim_C7 (sample : List (List (String × Rat)))
    (pre post : List (List (List (String × Rat))))
    (hne : sample ≠ [])
    (hnone : ∀ d, d ∈ sample → alookup d "1" = none) :
    sampleClusterProbs sample = (sample.map (fun _ => (0 : Rat)), true) ∧
    clusterProbs (pre ++ sample :: post)
      = clusterProbs pre ++ (sample.map (fun _ => (0 : Rat)), true)
          :: clusterProbs post := by
  have h1 : sampleClusterProbs sample = (sample.map (fun _ => (0 : Rat)), true) := by
    cases sample with
    | nil => exact absurd rfl hne
    | cons d0 rest =>
      have h0 := hnone d0 (List.mem_cons_self d0 rest)
      rw [sampleClusterProbs, tryOnes, mapE, h0]
  refine ⟨h1, ?_⟩
  rw [clusterProbs, List.map_append, List.map_cons, ← h1]
  rfl

/-- Witness for C7: a one-position sample whose marginal only mentions label "0". -/
theorem claim_C7_witness :
    sampleClusterProbs [[("0", (1 : Rat))]] = ([(0 : Rat)], true) ∧
    clusterProbs ([] ++ [[("0", (1 : Rat))]] :: [])
      = clusterProbs [] ++ ([(0 : Rat)], true) :: clusterProbs [] :=
  claim_C7 [[("0", (1 : Rat))]] [] [] (by decide) (by decide)

theorem mapE_ok_length {α β : Type} (f : α → Except String β) :
    ∀ (l : List α) (ys : List β), mapE f l = .ok ys → ys.length = l.length := by
  intro l
  induction l with
  | nil =>
    intro ys h
    rw [mapE] at h
    injection h with h
    subst h
    rfl
  | cons x xs ih =>
    intro ys h
    rw [mapE] at h
    cases hfx : f x with
    | error e => rw [hfx] at h; exact Except.noConfusion h
    | ok y =>
      rw [hfx] at h
      cases hmx : mapE f xs with
      | error e => rw [hmx] at h; exact Except.noConfusion h
      | ok ys2 =>
        rw [hmx] at h
        injection h with h
        rw [← h, List.length_cons, List.length_cons, ih ys2 hmx]

theorem mapE_ok_get {α β : Type} (f : α → Except String β) :
    ∀ (l : List α) (ys : List β), mapE f l = .ok ys →
    ∀ (i : Nat) (b : β), ys[i]? = some b → ∃ a, l[i]? = some a ∧ f a = .ok b := by
  intro l
  induction l with
  | nil =>
    intro ys h i b hb
    rw [mapE] at h
    injection h with h
    rw [← h] at hb
    simp at hb
  | cons x xs ih =>
    intro ys h i b hb
    rw [mapE] at h
    cases hfx : f x with
    | error e => rw [hfx] at h; exact Except.noConfusion h
    | ok y =>
      rw [hfx] at h
      cases hmx : mapE f xs with
      | error e => rw [hmx] at h; exact Except.noConfusion h
      | ok ys2 =>
        rw [hmx] at h
        injection h with h
        rw [← h] at hb
        cases i with
        | zero =>
          simp only [List.getElem?_cons_zero, Option.some.injEq] at hb
          exact ⟨x, by simp, hb ▸ hfx⟩
        | succ j =>
          simp only [List.getElem?_cons_succ] at hb
          obtain ⟨a, ha, hfa⟩ := ih ys2 hmx j b hb
          exact ⟨a, by simpa using ha, hfa⟩

theorem mem_dedupFS {κ : Type} [DecidableEq κ] (a : κ) :
    ∀ (l : List κ), a ∈ dedupFS l ↔ a ∈ l := by
  intro l
  induction l with
  | nil => simp [dedupFS]
  | cons x xs ih =>
    rw [dedupFS]
    by_cases hax : a = x
    · subst hax; simp
    · simp [List.mem_cons, List.mem_filter, hax, ih]

theorem alookup_zip_isSome {κ β : Type} [DecidableEq κ] :
    ∀ (ks : List κ) (ps : List β) (k : κ), k ∈ ks → ks.length = ps.length →
    (alookup (ks.zip ps) k).isSome = true := by
  intro ks
  induction ks with
  | nil => intro ps k hk _; simp at hk
  | cons k0 ks2 ih =>
    intro ps k hk hlen
    cases ps with
    | nil => simp at hlen
    | cons p0 ps2 =>
      rw [List.zip_cons_cons, alookup]
      by_cases h0 : k0 = k
      · simp [h0]
      · rw [if_neg h0]
        refine ih ps2 k ?_ (by simpa using hlen)
        cases List.mem_cons.mp hk with
        | inl h => exact absurd h.symm h0
        | inr h => exact h

theorem filterMap_pair_fst {α β : Type} (g : α → Option β) :
    ∀ (l : List α), (∀ a, a ∈ l → (g a).isSome = true) →
    (l.filterMap (fun a => (g a).map (fun q => (a, q)))).map Prod.fst = l := by
  intro l
  induction l with
  | nil => intro _; rfl
  | cons x xs ih =>
    intro h
    have hx := h x (List.mem_cons_self x xs)
    cases hgx : g x with
    | none => rw [hgx] at hx; simp at hx
    | some q =>
      simp only [List.filterMap_cons, hgx, Option.map_some', List.map_cons]
      rw [ih (fun a ha => h a (List.mem_cons_of_mem x ha))]

/-- Counterexample to C8: a sample whose protein id `A` recurs in two
non-adjacent rows is merged without any error: every row is paired with its
group's probability (the two `A` rows both get the first group's value). -/
theorem claim_C8_counterexample :
    merge cGrp dfDup [mkRat 7 10, mkRat 2 10]
      = .ok [(mkCrfRow "A" "d1" 2, mkRat 7 10), (mkCrfRow "B" "d2" 3, mkRat 2 10),
             (mkCrfRow "A" "d3" 4, mkRat 7 10)] := rfl

/-- C8 (amended): duplicate protein identifiers are not detected: `groupby`
coalesces all rows sharing an id into one group, group extraction produces one
probability per distinct id, and `_merge` then succeeds with no error, keeping
every row in order and silently assigning all rows sharing an id the same
group probability. -/
theorem claim_C8 (c : ClusterCRF) (df : List CrfRow) (X : List FeatDict)
    (p : List Rat)
    (hX : extractProteinFeatures c df none = .ok (X, none))
    (hlen : p.length = X.length) :
    ∃ out, merge c df p = .ok out ∧ out.map Prod.fst = df ∧
      ∀ r1 q1 r2 q2, (r1, q1) ∈ out → (r2, q2) ∈ out →
        keyf c r1 = keyf c r2 → q1 = q2 := by
  simp only [extractProteinFeatures] at hX
  by_cases hall : df.all (fun r => (r.get? c.groups).isSome) = true
  · rw [if_pos hall] at hX
    cases hmE : mapE (protGroupStep c none) (groupByFS (keyf c) df) with
    | error e => rw [hmE] at hX; exact Except.noConfusion hX
    | ok XY =>
      rw [hmE] at hX
      simp only [Except.ok.injEq, Prod.mk.injEq, and_true] at hX
      have hplen : (dedupFS (df.map (keyf c))).length = p.length := by
        rw [hlen, ← hX, List.length_map, mapE_ok_length _ _ _ hmE, groupByFS,
          List.length_map]
      have hsome : ∀ r, r ∈ df →
          (alookup ((dedupFS (df.map (keyf c))).zip p) (keyf c r)).isSome = true := by
        intro r hr
        exact alookup_zip_isSome _ p _
          ((mem_dedupFS _ _).mpr (List.mem_map_of_mem (keyf c) hr)) hplen
      refine ⟨df.filterMap (fun r =>
          (alookup ((dedupFS (df.map (keyf c))).zip p) (keyf c r)).map
            (fun q => (r, q))), ?_, ?_, ?_⟩
      · simp only [merge, if_pos hall]
        rw [if_pos hplen]
      · exact filterMap_pair_fst _ df hsome
      · intro r1 q1 r2 q2 h1 h2 hk
        obtain ⟨a1, _, hf1⟩ := List.mem_filterMap.mp h1
        obtain ⟨a2, _, hf2⟩ := List.mem_filterMap.mp h2
        obtain ⟨qa1, hq1, hpr1⟩ := Option.map_eq_some'.mp hf1
        obtain ⟨qa2, hq2, hpr2⟩ := Option.map_eq_some'.mp hf2
        obtain ⟨ha1, hqa1⟩ := Prod.mk.injEq .. ▸ hpr1
        obtain ⟨ha2, hqa2⟩ := Prod.mk.injEq .. ▸ hpr2
        rw [← hqa1, ← hqa2]
        rw [ha1] at hq1
        rw [ha2] at hq2
        rw [hk] at hq1
        rw [hq2] at hq1
        exact (Option.some.injEq qa2 qa1 ▸ hq1).symm
  · rw [if_neg hall] at hX
    exact Except.noConfusion hX

/-- Witness for C8: merging `dfDup` (duplicate id `A`) with its two group
probabilities succeeds, preserves the rows, and gives both `A` rows one value. -/
theorem claim_C8_witness :
    ∃ out, merge cGrp dfDup [mkRat 7 10, mkRat 2 10] = .ok out ∧
      out.map Prod.fst = dfDup ∧
      ∀ r1 q1 r2 q2, (r1, q1) ∈ out → (r2, q2) ∈ out →
        keyf cGrp r1 = keyf cGrp r2 → q1 = q2 :=
  claim_C8 cGrp dfDup [[(Val.s "d1", 2), (Val.s "d3", 4)], [(Val.s "d2", 3)]]
    [mkRat 7 10, mkRat 2 10] rfl rfl

theorem protGroupStep_ok (c : ClusterCRF) (yc : String) (g : Val × List CrfRow)
    (d : FeatDict) (o : Option String)
    (h : protGroupStep c (some yc) g = .ok (d, o)) :
    foldE (fun d0 row => makeFeatureDict c.features c.weights row d0) [] g.2
        = .ok d ∧
    ∃ r0, g.2.head? = some r0 ∧ ∃ v, r0.item yc = .ok v ∧ o = some v.pyStr := by
  simp only [protGroupStep] at h
  split at h
  next e heq => exact Except.noConfusion h
  next d2 heq =>
    split at h
    next r0 hh =>
      split at h
      next v hi =>
        injection h with h2
        obtain ⟨hd, ho⟩ := Prod.mk.injEq .. ▸ h2
        exact ⟨hd ▸ heq, r0, hh, v, hi, ho.symm⟩
      next e hi => exact Except.noConfusion h
    next hh => exact Except.noConfusion h

/-- C9: in group mode, rows are partitioned by the grouping column in first-seen
order: exactly one feature dict per distinct key (folding every row of that key,
in order, into one dict), and exactly one label per group — the stringified label
of the group's first row, whatever labels its later rows carry. -/
theorem claim_C9 (c : ClusterCRF) (table : List CrfRow) (yc : String)
    (X : List FeatDict) (Y : List String)
    (hok : extractProteinFeatures c table (some yc) = .ok (X, some Y)) :
    X.length = (dedupFS (table.map (keyf c))).length ∧
    Y.length = (dedupFS (table.map (keyf c))).length ∧
    (∀ (i : Nat) (k : Val) (d : FeatDict),
      (dedupFS (table.map (keyf c)))[i]? = some k → X[i]? = some d →
      foldE (fun d0 row => makeFeatureDict c.features c.weights row d0) []
        (table.filter (fun r => decide (keyf c r = k))) = .ok d) ∧
    (∀ (i : Nat) (k : Val) (s : String),
      (dedupFS (table.map (keyf c)))[i]? = some k → Y[i]? = some s →
      ∃ r0 rest, table.filter (fun r => decide (keyf c r = k)) = r0 :: rest ∧
        (r0.item yc).map Val.pyStr = .ok s) := by
  simp only [extractProteinFeatures] at hok
  by_cases hall : table.all (fun r => (r.get? c.groups).isSome) = true
  · rw [if_pos hall] at hok
    cases hmE : mapE (protGroupStep c (some yc)) (groupByFS (keyf c) table) with
    | error e => rw [hmE] at hok; exact Except.noConfusion hok
    | ok XY =>
      rw [hmE] at hok
      simp only [Except.ok.injEq, Prod.mk.injEq, Option.some.injEq] at hok
      obtain ⟨hX2, hY2⟩ := hok
      have hXYlen : XY.length = (dedupFS (table.map (keyf c))).length := by
        rw [mapE_ok_length _ _ _ hmE, groupByFS, List.length_map]
      refine ⟨?_, ?_, ?_, ?_⟩
      · rw [← hX2, List.length_map, hXYlen]
      · rw [← hY2, List.length_map, hXYlen]
      · intro i k d hk hd
        rw [← hX2, List.getElem?_map] at hd
        obtain ⟨pr, hpr, hfst⟩ := Option.map_eq_some'.mp hd
        obtain ⟨g, hg, hstep⟩ := mapE_ok_get _ _ _ hmE i pr hpr
        rw [groupByFS, List.getElem?_map, hk, Option.map_some'] at hg
        rw [Option.some.injEq] at hg
        obtain ⟨d2, o2⟩ := pr
        have hinv := protGroupStep_ok c yc g d2 o2 hstep
        rw [← hg] at hinv
        rw [← hfst]
        exact hinv.1
      · intro i k s hk hs
        rw [← hY2, List.getElem?_map] at hs
        obtain ⟨pr, hpr, hsnd⟩ := Option.map_eq_some'.mp hs
        obtain ⟨g, hg, hstep⟩ := mapE_ok_get _ _ _ hmE i pr hpr
        rw [groupByFS, List.getElem?_map, hk, Option.map_some'] at hg
        rw [Option.some.injEq] at hg
        obtain ⟨d2, o2⟩ := pr
        obtain ⟨_, r0, hh, v, hiv, ho⟩ := protGroupStep_ok c yc g d2 o2 hstep
        have hh2 : (table.filter (fun r => decide (keyf c r = k))).head? = some r0 := by
          rw [← hg] at hh
          exact hh
        have hsv : s = v.pyStr := by
          rw [← hsnd, ho]
          rfl
        cases hflt : table.filter (fun r => decide (keyf c r = k)) with
        | nil => rw [hflt] at hh2; exact Option.noConfusion hh2
        | cons a tail =>
          rw [hflt, List.head?_cons, Option.some.injEq] at hh2
          refine ⟨a, tail, rfl, ?_⟩
          rw [hh2, hiv, hsv]
          rfl
  · rw [if_neg hall] at hok
    exact Except.noConfusion hok

/-- Witness for C9 on `tableW9`: the first group is protein `A`, whose two rows
carry labels "1" then "0"; the emitted label for the group is the first row's
"1". -/
theorem claim_C9_witness :
    ∃ r0 rest, tableW9.filter (fun r => decide (keyf cGrp r = Val.s "A"))
        = r0 :: rest ∧
      (r0.item "BGC").map Val.pyStr = .ok "1" :=
  (claim_C9 cGrp tableW9 "BGC"
      [[(Val.s "d1", 2), (Val.s "d3", 4)], [(Val.s "d2", 3)]] ["1", "0"]
      rfl).2.2.2 0 (Val.s "A") "1" rfl rfl

end Gecco
